import Mathlib

set_option maxHeartbeats 1000000

/-!
Verification of the LOD (level-of-detail) subsystem of this repository,
the `LODManager` class: a shallow embedding of its data model and
operations, with theorems about vertex decimation, level selection,
visibility switching, registry lifecycle and resource accounting.

Numbers (JS IEEE doubles in the source) are modelled as rationals; vertex
position buffers (`Float32Array` / `ArrayLike<number>`) as `List ℚ`.
`THREE.Mesh` objects hold references into an explicit heap of geometries
and materials, so that the reference-sharing behaviour of `Mesh.clone()`
(three.js clones a mesh by copying its `geometry` and `material` fields
by reference, without duplicating buffers) is represented faithfully.
The scene graph (`parent` / `add` / `removeFromParent`) is not modelled:
no claim verified here depends on scene attachment, only on registry
state, heap state and visibility flags.
-/

/-- One 3D point (one vertex position): x, y, z. -/
abbrev Point : Type := ℚ × ℚ × ℚ

/-- Flatten a list of 3D points into the flat coordinate-buffer layout
used by three.js position attributes: x0, y0, z0, x1, y1, z1, and so on. -/
def flattenPoints : List Point → List ℚ
  | [] => []
  | (x, y, z) :: ps => x :: y :: z :: flattenPoints ps

/-- Structure `LODLevel` from the source (lines 10-14): one configured
level. -/
structure LODLevel where
  distance : ℚ
  simplificationRatio : ℚ
  visible : Bool
deriving DecidableEq, Repr

/-- Structure `LODConfig` from the source (lines 4-8). -/
structure LODConfig where
  levels : List LODLevel
  autoSwitch : Bool
  distanceThreshold : ℚ
deriving DecidableEq, Repr

/-- Default level used for in-bounds list reads (`levels[i]` in the
source is always in range where it occurs). -/
def defLevel : LODLevel := { distance := 0, simplificationRatio := 1, visible := true }

/-- Default configuration built into `LODManager` (source lines 18-27). -/
def defaultConfig : LODConfig :=
  { levels :=
      [ { distance := 0, simplificationRatio := 1, visible := true }
      , { distance := 50, simplificationRatio := 1/2, visible := true }
      , { distance := 200, simplificationRatio := 1/5, visible := true }
      , { distance := 500, simplificationRatio := 1/20, visible := false } ]
    autoSwitch := true
    distanceThreshold := 1000 }

/-- A geometry object: its position buffer plus bookkeeping flags.
`recomputedNormals` records that `computeVertexNormals()` ran after the
last position-buffer replacement; `disposed` that `dispose()` ran. -/
structure Geometry where
  positions : List ℚ
  recomputedNormals : Bool
  disposed : Bool
deriving DecidableEq, Repr

/-- Default geometry for heap reads. -/
def defGeometry : Geometry := { positions := [], recomputedNormals := false, disposed := false }

/-- A material object (`MeshLambertMaterial` in this repository). -/
structure Material where
  opacity : ℚ
  transparent : Bool
  wireframe : Bool
  disposed : Bool
deriving DecidableEq, Repr

/-- Default material for heap reads. -/
def defMaterial : Material := { opacity := 1, transparent := false, wireframe := false, disposed := false }

/-- A mesh object: references into the heap plus its own visibility flag.
The model meshes handled by this repository are single nodes, so
`traverse` in the source visits exactly the mesh itself. -/
structure MeshObj where
  geom : ℕ
  mat : ℕ
  visible : Bool
deriving DecidableEq, Repr

/-- Default mesh for list reads. -/
def defMesh : MeshObj := { geom := 0, mat := 0, visible := true }

/-- The heap of geometry and material objects; mesh fields are indices
into these lists, so shared references are shared indices. -/
structure Heap where
  geoms : List Geometry
  mats : List Material
deriving DecidableEq, Repr

/-- A `THREE.LOD` node: its world position (a fresh node sits at the
origin and is never moved by this repository) and its mesh children in
insertion order; `addLevel` appends the mesh as a child.  The stored
per-level distances are not read by any operation verified here. -/
structure LODObj where
  position : Point
  children : List MeshObj
deriving DecidableEq, Repr

/-- Default LOD node for map reads. -/
def defLOD : LODObj := { position := (0, 0, 0), children := [] }

/-- The `LODManager` state: the `lodObjects` map (association list with
JS `Map` get/set/delete semantics, keyed by model id), the configuration,
and the heap of geometry and material objects. -/
structure LODState where
  config : LODConfig
  lodObjects : List (ℕ × LODObj)
  heap : Heap
deriving DecidableEq, Repr

/-- JS `Map.get`: the value stored for a key, if any. -/
def mapGet : List (ℕ × LODObj) → ℕ → Option LODObj
  | [], _ => none
  | e :: rest, k => if e.1 = k then some e.2 else mapGet rest k

/-- JS `Map.set`: replace the entry for the key if present, otherwise
append a new entry. -/
def mapSet : List (ℕ × LODObj) → ℕ → LODObj → List (ℕ × LODObj)
  | [], k, v => [(k, v)]
  | e :: rest, k, v => if e.1 = k then (k, v) :: rest else e :: mapSet rest k v

/-- JS `Map.delete`: remove the entry for the key, if present. -/
def mapDelete : List (ℕ × LODObj) → ℕ → List (ℕ × LODObj)
  | [], _ => []
  | e :: rest, k => if e.1 = k then rest else e :: mapDelete rest k

/-- Function `decimateVertices(positions, targetCount)` (source lines
95-113), translated to a flat rational buffer.

In the source, `originalCount = positions.length / 3` is a JS float
division.  It is used twice: as the loop bound (for integer `i`,
`i < originalCount` is `i < ⌈length/3⌉`, i.e. `i < (length+2)/3` in
natural division) and inside `Math.floor(originalCount / targetCount)`,
which equals `length / (3*targetCount)` in natural division.  The loop
`for (i = 0; i < originalCount; i += step)` visits `i = k*step` for
`k < ⌈originalCount/step⌉`; each iteration pushes the three coordinates
of point `i` when the bounds guard `i*3 + 2 < positions.length` holds. -/
def decimateVertices (positions : List ℚ) (targetCount : ℕ) : List ℚ :=
  let L := positions.length
  let originalCount := (L + 2) / 3
  let step := max 1 (L / (3 * targetCount))
  (List.range ((originalCount + step - 1) / step)).flatMap (fun k =>
    let index := k * step * 3
    if index + 2 < L then
      [positions.getD index 0, positions.getD (index + 1) 0, positions.getD (index + 2) 0]
    else [])

/-- The decimator viewed at the level of whole 3D points: for a buffer
holding `pts.length` points it keeps every `step`-th point.  The theorem
`decimateVertices_flattenPoints` proves this is exactly what
`decimateVertices` does on the flat buffer. -/
def decimatePoints (pts : List Point) (targetCount : ℕ) : List Point :=
  let n := pts.length
  let step := max 1 (n / targetCount)
  (List.range ((n + step - 1) / step)).map (fun k => pts.getD (k * step) (0, 0, 0))

/-- Method `simplifyGeometry(mesh, ratio)` (source lines 75-93).  The
mesh is a single node, so `traverse` visits it alone; the geometry is
read and written through the mesh's heap reference (the source mutates
the geometry object in place via `setAttribute` and
`computeVertexNormals`).  `originalCount` is the JS float
`positions.length / 3`, kept here as a rational. -/
def simplifyGeometry (h : Heap) (mesh : MeshObj) (ratio : ℚ) : Heap :=
  let g := h.geoms.getD mesh.geom defGeometry
  let ocQ : ℚ := (g.positions.length : ℚ) / 3
  let targetCount : ℕ := max 3 (Int.toNat ⌊ocQ * ratio⌋)
  let g2 : Geometry :=
    { positions := decimateVertices g.positions targetCount
    , recomputedNormals := true
    , disposed := g.disposed }
  if (targetCount : ℚ) < ocQ then { h with geoms := h.geoms.set mesh.geom g2 }
  else h

/-- Method `adjustMaterial(mesh, levelIndex)` (source lines 115-134):
clones the mesh's material, degrades the clone as a function of the level
index, and points the mesh at the clone (allocated at the end of the
material heap).  Materials in this repository are `MeshLambertMaterial`s,
so the `instanceof` branch is taken. -/
def adjustMaterial (h : Heap) (mesh : MeshObj) (levelIndex : ℕ) : Heap × MeshObj :=
  let alpha : ℚ := max (3/10) (1 - (levelIndex : ℚ) * (1/5))
  let m := h.mats.getD mesh.mat defMaterial
  let m2 : Material :=
    { opacity := alpha
    , transparent := decide (0 < levelIndex)
    , wireframe := if 2 < levelIndex then true else m.wireframe
    , disposed := false }
  ({ h with mats := h.mats ++ [m2] }, { mesh with mat := h.mats.length })

/-- The call `originalMesh.clone()` (source line 60): three.js clones a
mesh by copying the `geometry` and `material` fields by reference, so the
clone shares both heap objects with the original (only the material is
re-cloned afterwards, inside `adjustMaterial`; the geometry reference
stays shared). -/
def cloneMesh (mesh : MeshObj) : MeshObj := mesh

/-- Method `createLODLevel(originalMesh, level, levelIndex)` (source
lines 56-73).  `fails` models the try-block throwing (the clone or
transform failing); the catch handler returns the untouched original
mesh for level 0 and null for every other level. -/
def createLODLevel (h : Heap) (originalMesh : MeshObj) (level : LODLevel)
    (levelIndex : ℕ) (fails : Bool) : Heap × Option MeshObj :=
  if !level.visible then (h, none)
  else if fails then (h, if levelIndex = 0 then some originalMesh else none)
  else
    let levelMesh := cloneMesh originalMesh
    let h1 := if level.simplificationRatio < 1 ∧ 0 < levelIndex
              then simplifyGeometry h levelMesh level.simplificationRatio
              else h
    let hm := adjustMaterial h1 levelMesh levelIndex
    (hm.1, some hm.2)

/-- Method `removeLODForModel(modelID)` (source lines 199-205): detaches
the LOD node from the scene (not modelled) and deletes the registry
entry. -/
def removeLODForModel (s : LODState) (modelID : ℕ) : LODState :=
  if (mapGet s.lodObjects modelID).isSome
  then { s with lodObjects := mapDelete s.lodObjects modelID }
  else s

/-- Method `createLODForModel(model, camera)` (source lines 35-54): if
the id is already registered its prior entry is removed first; one child
per successfully synthesised level is added in spec order (`addLevel`
appends the mesh as a child of the fresh LOD node, which sits at the
origin); the node is stored in the registry.  `failAt i` is the per-level
failure oracle passed to `createLODLevel`.  Scene re-parenting of the
original mesh is not modelled. -/
def createLODForModel (s : LODState) (modelID : ℕ) (mesh : MeshObj)
    (failAt : ℕ → Bool) : LODState :=
  let s0 := if (mapGet s.lodObjects modelID).isSome
            then removeLODForModel s modelID else s
  let built := s0.config.levels.enum.foldl
    (fun acc ia =>
      let r := createLODLevel acc.1 mesh ia.2 ia.1 (failAt ia.1)
      match r.2 with
      | some m => (r.1, acc.2 ++ [m])
      | none => (r.1, acc.2))
    (s0.heap, ([] : List MeshObj))
  let node : LODObj := { position := (0, 0, 0), children := built.2 }
  { s0 with heap := built.1, lodObjects := mapSet s0.lodObjects modelID node }

/-- Method `setLODLevel(modelID, level)` (source lines 144-154): no-op
for an unmanaged id; the level argument is range-checked against
`config.levels.length`, and visibility is then toggled child by child
under the model's LOD node by child position. -/
def setLODLevel (s : LODState) (modelID : ℕ) (level : ℤ) : LODState :=
  match mapGet s.lodObjects modelID with
  | none => s
  | some lod =>
    if 0 ≤ level ∧ level < (s.config.levels.length : ℤ) then
      let newChildren :=
        lod.children.enum.map (fun ic => { ic.2 with visible := decide ((ic.1 : ℤ) = level) })
      let lod2 : LODObj := { lod with children := newChildren }
      { s with lodObjects := mapSet s.lodObjects modelID lod2 }
    else s

/-- Squared Euclidean distance between two points. -/
def sqDist (p q : Point) : ℚ :=
  (p.1 - q.1) * (p.1 - q.1) + (p.2.1 - q.2.1) * (p.2.1 - q.2.1)
    + (p.2.2 - q.2.2) * (p.2.2 - q.2.2)

/-- The comparison `distance >= t` where `distance = √sqd` is the
three.js `distanceTo` value, expressed on the squared distance: for
`sqd ≥ 0`, `√sqd ≥ t` holds iff `t ≤ 0 ∨ t² ≤ sqd`. -/
def distanceGE (sqd t : ℚ) : Bool := decide (t ≤ 0 ∨ t * t ≤ sqd)

/-- The descending scan of `getCurrentLODLevel` (source lines 162-166):
`scanDown levels sqd n` checks indices n-1, n-2, ..., 0 in that order and
returns the first (hence highest) index whose distance threshold the
viewing distance reaches, and 0 if none qualifies. -/
def scanDown (levels : List LODLevel) (sqd : ℚ) : ℕ → ℕ
  | 0 => 0
  | n + 1 =>
    if distanceGE sqd ((levels.getD n defLevel).distance) then n
    else scanDown levels sqd n

/-- Method `getCurrentLODLevel(modelID, camera)` (source lines 156-169):
0 for an unmanaged id; otherwise the descending scan over all configured
levels (enabled or not) against the camera-to-node distance.  The method
only reads state, which the embedding reflects by returning just the
level index. -/
def getCurrentLODLevel (s : LODState) (modelID : ℕ) (cameraPos : Point) : ℕ :=
  match mapGet s.lodObjects modelID with
  | none => 0
  | some lod =>
    scanDown s.config.levels (sqDist cameraPos lod.position) s.config.levels.length

/-- Method `getMemoryUsage()` (source lines 171-189): a Float32 buffer
takes 4 bytes per stored coordinate, so a child costs
`4 * positions.length` bytes; `byLevel` buckets by child position under
the LOD node. -/
def getMemoryUsage (s : LODState) : ℕ × List ℕ :=
  s.lodObjects.foldl
    (fun acc e =>
      e.2.children.enum.foldl
        (fun acc2 ic =>
          let memory := 4 * (s.heap.geoms.getD ic.2.geom defGeometry).positions.length
          (acc2.1 + memory, acc2.2.set ic.1 (acc2.2.getD ic.1 0 + memory)))
        acc)
    (0, List.replicate s.config.levels.length 0)

/-- Mark the geometry at an index disposed (`geometry.dispose()`). -/
def disposeGeomAt (gs : List Geometry) (i : ℕ) : List Geometry :=
  match gs.get? i with
  | some g => gs.set i { g with disposed := true }
  | none => gs

/-- Mark the material at an index disposed (`material.dispose()`). -/
def disposeMatAt (ms : List Material) (i : ℕ) : List Material :=
  match ms.get? i with
  | some m => ms.set i { m with disposed := true }
  | none => ms

/-- Method `dispose()` (source lines 207-223): disposes every child's
geometry and material across all registered LOD nodes, detaches the nodes
(scene effect, not modelled) and clears the registry. -/
def dispose (s : LODState) : LODState :=
  let h2 := s.lodObjects.foldl
    (fun h e => e.2.children.foldl
      (fun hh c => { geoms := disposeGeomAt hh.geoms c.geom
                   , mats := disposeMatAt hh.mats c.mat })
      h)
    s.heap
  { s with lodObjects := [], heap := h2 }

/-- Modelled from the spec: the level-selection rule exactly as claim C1
states it — the highest **enabled** level index whose distance threshold
is at most the viewing distance, and 0 when none qualifies (spec.md §4.3
and §8).  Stated on the squared distance via `distanceGE`. -/
def specEnabledLevel (levels : List LODLevel) (sqd : ℚ) : ℕ :=
  (((List.range levels.length).filter
      (fun i => (levels.getD i defLevel).visible
        && distanceGE sqd (levels.getD i defLevel).distance)).getLast?).getD 0

/-- An operation on the registry, for lifecycle invariants. -/
inductive LODOp where
  | register (modelID : ℕ) (mesh : MeshObj) (failAt : ℕ → Bool)
  | unregister (modelID : ℕ)
  | setLevel (modelID : ℕ) (level : ℤ)
  | disposeAll

/-- Apply one operation to the manager state. -/
def applyOp (s : LODState) : LODOp → LODState
  | .register id mesh failAt => createLODForModel s id mesh failAt
  | .unregister id => removeLODForModel s id
  | .setLevel id lvl => setLODLevel s id lvl
  | .disposeAll => dispose s

/-- Run a sequence of operations. -/
def runOps (s : LODState) (ops : List LODOp) : LODState := ops.foldl applyOp s

/-- A freshly constructed manager: given configuration, empty registry,
ambient heap. -/
def initState (cfg : LODConfig) (h : Heap) : LODState :=
  { config := cfg, lodObjects := [], heap := h }

/-- Eight collinear test points. -/
def pts8 : List Point :=
  [(0, 0, 0), (1, 0, 0), (2, 0, 0), (3, 0, 0), (4, 0, 0), (5, 0, 0), (6, 0, 0), (7, 0, 0)]

/-- A heap holding one geometry (the 8-point buffer) and one material. -/
def heap0 : Heap :=
  { geoms := [{ positions := flattenPoints pts8, recomputedNormals := false, disposed := false }]
    mats := [defMaterial] }

/-- The source model mesh: geometry 0, material 0. -/
def mesh0 : MeshObj := { geom := 0, mat := 0, visible := true }

/-- A two-level configuration: full detail at distance 0, half detail at
distance 50. -/
def cfg2 : LODConfig :=
  { levels :=
      [ { distance := 0, simplificationRatio := 1, visible := true }
      , { distance := 50, simplificationRatio := 1/2, visible := true } ]
    autoSwitch := true
    distanceThreshold := 1000 }

/-- No synthesis failures. -/
def noFail : ℕ → Bool := fun _ => false

/-- Model 1 registered under the two-level configuration. -/
def s4 : LODState := createLODForModel (initState cfg2 heap0) 1 mesh0 noFail

/-- A two-level configuration whose level 1 is disabled. -/
def cfg3 : LODConfig :=
  { levels :=
      [ { distance := 0, simplificationRatio := 1, visible := true }
      , { distance := 50, simplificationRatio := 1/2, visible := false } ]
    autoSwitch := true
    distanceThreshold := 1000 }

/-- Model 1 registered under `cfg3`: only level 0 is built, so the LOD
node has a single child while the configuration has two levels. -/
def sD : LODState := createLODForModel (initState cfg3 heap0) 1 mesh0 noFail

/-- An empty manager under the default configuration. -/
def sEmpty : LODState := initState defaultConfig heap0

/-- A manager whose model 1 has three always-visible children, under the
default configuration. -/
def sV : LODState :=
  { config := defaultConfig
    lodObjects := [(1, { position := (0, 0, 0)
                       , children := [defMesh, defMesh, defMesh] })]
    heap := heap0 }

/-- Counting loop iterations: `k*step` is visited iff it is below the
bound, and the number of visited indices is the ceiling division. -/
theorem lt_ceilDiv_iff {k s n : ℕ} (hs : 0 < s) : k < (n + s - 1) / s ↔ k * s < n := by
  rw [Nat.lt_iff_add_one_le, Nat.le_div_iff_mul_le hs, Nat.succ_mul]
  generalize k * s = x
  omega

/-- A flattened buffer stores three coordinates per point. -/
theorem length_flattenPoints (ps : List Point) : (flattenPoints ps).length = 3 * ps.length := by
  induction ps with
  | nil => rfl
  | cons p rest ih =>
    obtain ⟨x, y, z⟩ := p
    simp only [flattenPoints, List.length_cons, ih]
    ring

/-- Reading point `i` of a flattened buffer coordinate by coordinate. -/
theorem flattenPoints_getD (ps : List Point) (i : ℕ) (h : i < ps.length) :
    (flattenPoints ps).getD (3 * i) 0 = (ps.getD i (0, 0, 0)).1 ∧
    (flattenPoints ps).getD (3 * i + 1) 0 = (ps.getD i (0, 0, 0)).2.1 ∧
    (flattenPoints ps).getD (3 * i + 2) 0 = (ps.getD i (0, 0, 0)).2.2 := by
  induction ps generalizing i with
  | nil => simp at h
  | cons p rest ih =>
    obtain ⟨x, y, z⟩ := p
    match i with
    | 0 => simp [flattenPoints]
    | j + 1 =>
      have h1 : 3 * (j + 1) = 3 * j + 1 + 1 + 1 := by ring
      have h2 : 3 * (j + 1) + 1 = 3 * j + 1 + 1 + 1 + 1 := by ring
      have h3 : 3 * (j + 1) + 2 = 3 * j + 2 + 1 + 1 + 1 := by ring
      simp only [flattenPoints, h1, h2, h3, List.getD_cons_succ, List.getD_cons_zero]
      have h4 : 3 * j + 1 + 1 + 1 + 1 = 3 * j + 1 + 1 + 1 + 1 := rfl
      have hj : j < rest.length := by simpa using h
      have := ih j hj
      simpa [List.getD_cons_succ] using this

/-- Reading every index of a list back in order reproduces the list. -/
theorem range_map_getD {α : Type} (l : List α) (d : α) :
    (List.range l.length).map (fun k => l.getD k d) = l := by
  apply List.ext_getElem?
  intro n
  by_cases h : n < l.length
  · rw [List.getElem?_map, List.getElem?_range h, List.getElem?_eq_getElem h]
    simp [List.getD_eq_getElem?_getD, List.getElem?_eq_getElem h]
  · have h1 : l.length ≤ n := Nat.le_of_not_lt h
    rw [List.getElem?_eq_none (by simpa using h1), List.getElem?_eq_none h1]

/-- Flattening expressed as a flat map over the points. -/
theorem flattenPoints_eq_flatMap (ps : List Point) :
    flattenPoints ps = ps.flatMap (fun p => [p.1, p.2.1, p.2.2]) := by
  induction ps with
  | nil => rfl
  | cons p rest ih =>
    obtain ⟨x, y, z⟩ := p
    simp [flattenPoints, ih]

/-- Flat-mapping after a map composes the functions. -/
theorem flatMap_after_map {α β γ : Type} (l : List α) (f : α → β) (g : β → List γ) :
    (l.map f).flatMap g = l.flatMap (fun x => g (f x)) := by
  induction l with
  | nil => rfl
  | cons a rest ih => simp [List.flatMap_cons, ih]

/-- The flat decimator agrees with the point decimator: on a buffer of
whole 3D points every bounds guard holds, and the kept flat triples are
exactly the flattened kept points. -/
theorem decimateVertices_flattenPoints (pts : List Point) (t : ℕ) :
    decimateVertices (flattenPoints pts) t = flattenPoints (decimatePoints pts t) := by
  have hlen : (flattenPoints pts).length = 3 * pts.length := length_flattenPoints pts
  have hs1 : 0 < max 1 (pts.length / t) := le_max_left 1 _
  have hR : flattenPoints (decimatePoints pts t)
      = (List.range
          ((pts.length + max 1 (pts.length / t) - 1) / max 1 (pts.length / t))).flatMap
          (fun k => [(pts.getD (k * max 1 (pts.length / t)) (0, 0, 0)).1,
                     (pts.getD (k * max 1 (pts.length / t)) (0, 0, 0)).2.1,
                     (pts.getD (k * max 1 (pts.length / t)) (0, 0, 0)).2.2]) := by
    unfold decimatePoints
    rw [flattenPoints_eq_flatMap, flatMap_after_map]
  rw [hR]
  unfold decimateVertices
  simp only [hlen]
  have hoc : (3 * pts.length + 2) / 3 = pts.length := by omega
  have hstep : 3 * pts.length / (3 * t) = pts.length / t :=
    Nat.mul_div_mul_left pts.length t (by norm_num)
  rw [hoc, hstep]
  apply List.flatMap_congr
  intro k hk
  have hks : k * max 1 (pts.length / t) < pts.length :=
    (lt_ceilDiv_iff hs1).1 (List.mem_range.1 hk)
  generalize hi : k * max 1 (pts.length / t) = i at hks ⊢
  have hg : i * 3 + 2 < 3 * pts.length := by omega
  rw [if_pos hg]
  have hcomm : i * 3 = 3 * i := by ring
  obtain ⟨e1, e2, e3⟩ := flattenPoints_getD pts i hks
  rw [hcomm, e1, e2, e3]

/-- The point decimator's output length is the ceiling count of the
stride loop. -/
theorem decimatePoints_length (pts : List Point) (t : ℕ) :
    (decimatePoints pts t).length
      = (pts.length + max 1 (pts.length / t) - 1) / max 1 (pts.length / t) := by
  simp [decimatePoints]

/-- The point decimator picks elements at strictly increasing indices, so
its output is a subsequence of the input. -/
theorem decimatePoints_sublist (pts : List Point) (t : ℕ) :
    (decimatePoints pts t).Sublist pts := by
  have hs1 : 0 < max 1 (pts.length / t) := le_max_left 1 _
  have hmono : StrictMono (fun k : ℕ => k * max 1 (pts.length / t)) :=
    fun a b h => (Nat.mul_lt_mul_right hs1).2 h
  apply List.sublist_of_orderEmbedding_get?_eq (OrderEmbedding.ofStrictMono _ hmono)
  intro ix
  rw [OrderEmbedding.coe_ofStrictMono]
  simp only [List.get?_eq_getElem?]
  unfold decimatePoints
  by_cases h : ix < (pts.length + max 1 (pts.length / t) - 1) / max 1 (pts.length / t)
  · have hb : ix * max 1 (pts.length / t) < pts.length := (lt_ceilDiv_iff hs1).1 h
    rw [List.getElem?_map, List.getElem?_range h, List.getElem?_eq_getElem hb]
    simp [List.getD_eq_getElem?_getD, List.getElem?_eq_getElem hb]
  · have hb : ¬ ix * max 1 (pts.length / t) < pts.length :=
      fun hc => h ((lt_ceilDiv_iff hs1).2 hc)
    rw [List.getElem?_eq_none (by simpa using h), List.getElem?_eq_none (by omega)]

/-- With a target at least the point count, the stride is 1 and the point
decimator copies its input exactly. -/
theorem decimatePoints_id (pts : List Point) (t : ℕ) (h : pts.length ≤ t) :
    decimatePoints pts t = pts := by
  have hdiv : pts.length / t ≤ 1 := by
    rcases Nat.lt_or_ge pts.length t with hlt | hge
    · simp [Nat.div_eq_of_lt hlt]
    · have he : pts.length = t := le_antisymm h hge
      rcases Nat.eq_zero_or_pos t with h0 | h0
      · simp [he, h0]
      · simp [he, Nat.div_self h0]
  have hs : max 1 (pts.length / t) = 1 := by omega
  unfold decimatePoints
  simp only [hs, Nat.add_sub_cancel, Nat.div_one, Nat.mul_one]
  exact range_map_getD pts (0, 0, 0)

/-- Every buffer of length `3*n` is the flattening of `n` points. -/
theorem exists_unflatten (n : ℕ) :
    ∀ flat : List ℚ, flat.length = 3 * n →
      ∃ pts : List Point, pts.length = n ∧ flat = flattenPoints pts := by
  induction n with
  | zero =>
    intro flat h
    rw [List.length_eq_zero] at h
    exact ⟨[], rfl, by simp [h, flattenPoints]⟩
  | succ m ih =>
    intro flat h
    match flat with
    | [] => simp at h
    | [_] => simp at h; omega
    | [_, _] => simp at h; omega
    | x :: y :: z :: rest =>
      have hr : rest.length = 3 * m := by simp at h; omega
      obtain ⟨pts, hp1, hp2⟩ := ih rest hr
      exact ⟨(x, y, z) :: pts, by simp [hp1], by simp [flattenPoints, hp2]⟩

/-- With a target at least the point count, the flat decimator returns
the buffer unchanged. -/
theorem decimateVertices_noop (flat : List ℚ) (n t : ℕ)
    (hL : flat.length = 3 * n) (h : n ≤ t) : decimateVertices flat t = flat := by
  obtain ⟨pts, hp1, hp2⟩ := exists_unflatten n flat hL
  subst hp2
  rw [decimateVertices_flattenPoints, decimatePoints_id]
  omega

/-- Claim C2: for every sequence of 3D points and every targetCount with
3 ≤ targetCount < originalCount, the decimator returns a subsequence of
the input (same points, original relative order, nothing fabricated)
whose length is the stride-rounded count `⌈originalCount/stride⌉` for
`stride = max(1, ⌊originalCount/targetCount⌋)` — at least `targetCount`
and within the one unit of slack that rounding the stride down to an
integer introduces. -/
theorem decimate_bounds_C2 (pts : List Point) (t : ℕ)
    (h3 : 3 ≤ t) (hlt : t < pts.length) :
    decimateVertices (flattenPoints pts) t = flattenPoints (decimatePoints pts t) ∧
    (decimatePoints pts t).length
      = (pts.length + max 1 (pts.length / t) - 1) / max 1 (pts.length / t) ∧
    t ≤ (decimatePoints pts t).length ∧
    (decimatePoints pts t).Sublist pts := by
  refine ⟨decimateVertices_flattenPoints pts t, decimatePoints_length pts t, ?_,
    decimatePoints_sublist pts t⟩
  have ht0 : 0 < t := by omega
  have htn : t ≤ pts.length := Nat.le_of_lt hlt
  have hdiv : 1 ≤ pts.length / t := (Nat.one_le_div_iff ht0).2 htn
  have hsmax : max 1 (pts.length / t) = pts.length / t := max_eq_right hdiv
  rw [decimatePoints_length, hsmax, Nat.le_div_iff_mul_le (by omega), mul_comm]
  have h1 : pts.length / t * t ≤ pts.length := Nat.div_mul_le_self pts.length t
  generalize pts.length / t = q at hdiv h1 ⊢
  generalize q * t = x at h1 ⊢
  omega

/-- Witness for C2 at the eight test points with target 3. -/
theorem decimate_bounds_C2_witness :
    (3 ≤ 3 ∧ 3 < pts8.length) ∧
    (3 ≤ (decimatePoints pts8 3).length ∧ (decimatePoints pts8 3).Sublist pts8) :=
  ⟨⟨by norm_num, by decide⟩,
   (decimate_bounds_C2 pts8 3 (by norm_num) (by decide)).2.2.1,
   (decimate_bounds_C2 pts8 3 (by norm_num) (by decide)).2.2.2⟩

/-- Claim C3: with targetCount at least the input point count the
decimator is a no-op — the flat buffer is returned unchanged and, viewed
as points, the output equals the input point for point. -/
theorem decimate_identity_C3 (pts : List Point) (t : ℕ) (h : pts.length ≤ t) :
    decimateVertices (flattenPoints pts) t = flattenPoints pts ∧
    decimatePoints pts t = pts := by
  have hid := decimatePoints_id pts t h
  exact ⟨by rw [decimateVertices_flattenPoints, hid], hid⟩

/-- Witness for C3 at the eight test points with target 8. -/
theorem decimate_identity_C3_witness :
    pts8.length ≤ 8 ∧ decimateVertices (flattenPoints pts8) 8 = flattenPoints pts8 :=
  ⟨by decide, (decimate_identity_C3 pts8 8 (by decide)).1⟩

/-- Claim C10: for at least one input point and any targetCount ≥ 1, the
decimator keeps exactly `⌈originalCount/step⌉` points for
`step = max(1, ⌊originalCount/targetCount⌋)`; in particular the output is
non-empty and starts with the input's first point. -/
theorem decimate_count_C10 (pts : List Point) (t : ℕ)
    (h1 : 1 ≤ pts.length) (ht : 1 ≤ t) :
    decimateVertices (flattenPoints pts) t = flattenPoints (decimatePoints pts t) ∧
    (decimatePoints pts t).length
      = (pts.length + max 1 (pts.length / t) - 1) / max 1 (pts.length / t) ∧
    0 < (decimatePoints pts t).length ∧
    (decimatePoints pts t).head? = pts.head? := by
  have hs1 : 0 < max 1 (pts.length / t) := le_max_left 1 _
  have hm : 0 < (pts.length + max 1 (pts.length / t) - 1) / max 1 (pts.length / t) := by
    have h0 : 0 * max 1 (pts.length / t) < pts.length := by
      rw [Nat.zero_mul]; omega
    exact (@lt_ceilDiv_iff 0 (max 1 (pts.length / t)) pts.length hs1).2 h0
  refine ⟨decimateVertices_flattenPoints pts t, decimatePoints_length pts t, ?_, ?_⟩
  · rw [decimatePoints_length]; exact hm
  · have h0 : (0 : ℕ) < pts.length := h1
    unfold decimatePoints
    rw [List.head?_eq_getElem?, List.head?_eq_getElem?]
    rw [List.getElem?_map, List.getElem?_range hm, List.getElem?_eq_getElem h0]
    simp [List.getD_eq_getElem?_getD, List.getElem?_eq_getElem h0]

/-- Witness for C10 at the eight test points with target 5. -/
theorem decimate_count_C10_witness :
    (1 ≤ pts8.length ∧ 1 ≤ 5) ∧
    (0 < (decimatePoints pts8 5).length ∧ (decimatePoints pts8 5).head? = pts8.head?) :=
  ⟨⟨by decide, by norm_num⟩,
   (decimate_count_C10 pts8 5 (by decide) (by norm_num)).2.2.1,
   (decimate_count_C10 pts8 5 (by decide) (by norm_num)).2.2.2⟩

/-- The descending scan never overshoots: it returns 0 or a qualifying
index below the scan bound. -/
theorem scanDown_qualifies (levels : List LODLevel) (sqd : ℚ) :
    ∀ n, scanDown levels sqd n = 0 ∨
      (scanDown levels sqd n < n ∧
        distanceGE sqd ((levels.getD (scanDown levels sqd n) defLevel).distance) = true) := by
  intro n
  induction n with
  | zero => left; rfl
  | succ m ih =>
    by_cases h : distanceGE sqd ((levels.getD m defLevel).distance) = true
    · right
      have hr : scanDown levels sqd (m + 1) = m := by
        simp only [scanDown]
        rw [if_pos h]
      rw [hr]
      exact ⟨Nat.lt_succ_self m, h⟩
    · have hr : scanDown levels sqd (m + 1) = scanDown levels sqd m := by
        simp only [scanDown]
        rw [if_neg (by simpa using h)]
      rw [hr]
      rcases ih with h0 | ⟨hlt, hq⟩
      · left; exact h0
      · right; exact ⟨Nat.lt_succ_of_lt hlt, hq⟩

/-- The descending scan dominates every qualifying index below its
bound: the first hit while scanning downward is the highest. -/
theorem scanDown_ge (levels : List LODLevel) (sqd : ℚ) :
    ∀ n j, j < n → distanceGE sqd ((levels.getD j defLevel).distance) = true →
      j ≤ scanDown levels sqd n := by
  intro n
  induction n with
  | zero => intro j hj _; omega
  | succ m ih =>
    intro j hj hq
    by_cases h : distanceGE sqd ((levels.getD m defLevel).distance) = true
    · simp only [scanDown, h, if_true]
      omega
    · have hr : scanDown levels sqd (m + 1) = scanDown levels sqd m := by
        simp only [scanDown]
        rw [if_neg (by simpa using h)]
      rw [hr]
      have hjm : j ≠ m := by
        intro he
        rw [he] at hq
        exact h hq
      exact ih j (by omega) hq

/-- Claim C1, amended to what the code computes: for a managed model the
query returns the highest index among ALL configured levels — enabled or
not — whose distance threshold is reached by the camera-to-node distance
(0 when none is), and 0 for an unmanaged model; the enabled flag is not
consulted.  The method only reads state: the embedding returns just the
index, with no state output.  The comparison is `√sqd ≥ threshold`,
stated on the squared distance via `distanceGE`. -/
theorem currentLevel_selection_C1 (s : LODState) (modelID : ℕ) (cameraPos : Point) :
    (mapGet s.lodObjects modelID = none → getCurrentLODLevel s modelID cameraPos = 0) ∧
    (∀ lod, mapGet s.lodObjects modelID = some lod →
      (∀ j, j < s.config.levels.length →
        distanceGE (sqDist cameraPos lod.position)
          ((s.config.levels.getD j defLevel).distance) = true →
        j ≤ getCurrentLODLevel s modelID cameraPos) ∧
      (getCurrentLODLevel s modelID cameraPos = 0 ∨
        (getCurrentLODLevel s modelID cameraPos < s.config.levels.length ∧
          distanceGE (sqDist cameraPos lod.position)
            ((s.config.levels.getD (getCurrentLODLevel s modelID cameraPos) defLevel).distance)
              = true))) := by
  constructor
  · intro h
    simp [getCurrentLODLevel, h]
  · intro lod h
    simp only [getCurrentLODLevel, h]
    exact ⟨fun j hj hq => scanDown_ge s.config.levels (sqDist cameraPos lod.position)
        s.config.levels.length j hj hq,
      scanDown_qualifies s.config.levels (sqDist cameraPos lod.position) s.config.levels.length⟩

/-- Witness for the amended C1: with the default configuration and a
camera 600 units from the node, index 3 qualifies, so the query returns
at least 3. -/
theorem currentLevel_selection_C1_witness : 3 ≤ getCurrentLODLevel sV 1 (600, 0, 0) := by
  have h := (currentLevel_selection_C1 sV 1 (600, 0, 0)).2
    ({ position := (0, 0, 0), children := [defMesh, defMesh, defMesh] }) (by rfl)
  refine h.1 3 (by norm_num [sV, defaultConfig]) ?_
  norm_num [sV, defaultConfig, distanceGE, sqDist, defLevel, List.getD_cons_succ,
    List.getD_cons_zero]

/-- Claim C1 as frozen is false on the code: under the default
configuration (whose level 3 is disabled) with a managed model at the
origin and a camera at distance 600, the code returns index 3, but the
highest ENABLED level whose threshold is reached is 2 —
`getCurrentLODLevel` never consults the enabled flag. -/
theorem currentLevel_enabled_C1_cex :
    (mapGet sV.lodObjects 1).isSome = true ∧
    getCurrentLODLevel sV 1 (600, 0, 0) = 3 ∧
    specEnabledLevel sV.config.levels (sqDist (600, 0, 0) (0, 0, 0)) = 2 ∧
    (sV.config.levels.getD 3 defLevel).visible = false := by
  refine ⟨by rfl, ?_, ?_, by rfl⟩
  · norm_num [getCurrentLODLevel, mapGet, sV, defaultConfig, scanDown, distanceGE, sqDist,
      defLevel, defMesh, heap0, List.getD_cons_succ, List.getD_cons_zero]
  · norm_num [specEnabledLevel, sV, defaultConfig, distanceGE, sqDist, defLevel,
      List.range_succ, List.filter_append, List.filter_cons, List.filter_nil,
      List.getD_cons_succ, List.getD_cons_zero, List.getLast?_concat]

/-- Setting a key in the map makes it retrievable. -/
theorem mapGet_mapSet_self (m : List (ℕ × LODObj)) (k : ℕ) (v : LODObj) :
    mapGet (mapSet m k v) k = some v := by
  induction m with
  | nil => simp [mapSet, mapGet]
  | cons e rest ih =>
    by_cases h : e.1 = k
    · simp [mapSet, h, mapGet]
    · simp [mapSet, h, mapGet, ih]

/-- Claim C7, amended to what the code does: an unmanaged id or an index
outside `[0, config.levels.length)` is a silent no-op; otherwise each
CHILD of the model's LOD node becomes visible exactly when its child
position equals the given index.  When every configured level up to that
index was built this is the claimed behaviour, but the index is validated
against the configuration while visibility is toggled by child position,
so an in-range index with no corresponding built child (a disabled or
failed earlier level shifts positions; a trailing disabled level leaves
fewer children) makes every level of the model invisible instead of
making one visible. -/
theorem setLevel_indexing_C7 (s : LODState) (modelID : ℕ) (lvl : ℤ) :
    (mapGet s.lodObjects modelID = none → setLODLevel s modelID lvl = s) ∧
    (¬ (0 ≤ lvl ∧ lvl < (s.config.levels.length : ℤ)) → setLODLevel s modelID lvl = s) ∧
    (∀ lod, mapGet s.lodObjects modelID = some lod →
      0 ≤ lvl → lvl < (s.config.levels.length : ℤ) →
      ∃ lod2, mapGet (setLODLevel s modelID lvl).lodObjects modelID = some lod2 ∧
        lod2.children.length = lod.children.length ∧
        ∀ i, i < lod2.children.length →
          ((lod2.children.getD i defMesh).visible = true ↔ (i : ℤ) = lvl)) := by
  refine ⟨?_, ?_, ?_⟩
  · intro h
    simp [setLODLevel, h]
  · intro h
    rcases he : mapGet s.lodObjects modelID with _ | lod
    · simp [setLODLevel, he]
    · simp only [setLODLevel, he]
      rw [if_neg h]
  · intro lod he h0 h1
    simp only [setLODLevel, he]
    rw [if_pos ⟨h0, h1⟩]
    refine ⟨_, mapGet_mapSet_self _ _ _, by simp [List.enum_length], ?_⟩
    intro i hi
    have hi2 : i < lod.children.length := by simpa [List.enum_length] using hi
    have hi3 : i < lod.children.enum.length := by simpa [List.enum_length] using hi2
    rw [List.getD_eq_getElem _ _ (by simpa [List.enum_length] using hi2)]
    rw [List.getElem_map]
    rw [List.getElem_enum]
    simp

/-- Witness for the amended C7: forcing level 1 on a model with three
children makes the child at position 1 visible. -/
theorem setLevel_indexing_C7_witness :
    (((mapGet (setLODLevel sV 1 1).lodObjects 1).getD defLOD).children.getD 1 defMesh).visible
      = true := by
  obtain ⟨lod2, hget, hlen, hvis⟩ := (setLevel_indexing_C7 sV 1 1).2.2
    ({ position := (0, 0, 0), children := [defMesh, defMesh, defMesh] })
    (by rfl) (by norm_num) (by norm_num [sV, defaultConfig])
  rw [hget]
  simp only [Option.getD_some]
  have h1 : (1 : ℕ) < lod2.children.length := by rw [hlen]; norm_num
  exact (hvis 1 h1).2 (by norm_num)

/-- Claim C7 as frozen is false on the code: under a configuration whose
level 1 is disabled, a registered model has a single child (level 0); the
index 1 is inside `[0, config.levels.length)`, yet `setLODLevel` makes
every child invisible — no level's visibility is set to true. -/
theorem setLevel_indexing_C7_cex :
    (mapGet sD.lodObjects 1).isSome = true ∧
    (0 : ℤ) ≤ 1 ∧ (1 : ℤ) < (sD.config.levels.length : ℤ) ∧
    mapGet (setLODLevel sD 1 1).lodObjects 1
      = some { position := (0, 0, 0)
             , children := [{ geom := 0, mat := 1, visible := false }] } := by
  have hsD : sD
      = { config := cfg3
        , lodObjects := [(1, { position := (0, 0, 0)
                             , children := [{ geom := 0, mat := 1, visible := true }] })]
        , heap := { geoms := [{ positions := flattenPoints pts8
                              , recomputedNormals := false, disposed := false }]
                  , mats := [defMaterial
                            , { opacity := 1, transparent := false
                              , wireframe := false, disposed := false }] } } := by
    norm_num [sD, cfg3, createLODForModel, initState, removeLODForModel, mapGet, mapSet,
      createLODLevel, cloneMesh, simplifyGeometry, adjustMaterial, heap0, mesh0, noFail,
      defMaterial, defMesh, defGeometry, List.enum, List.enumFrom, List.foldl_cons,
      List.foldl_nil]
  rw [hsD]
  refine ⟨by rfl, by norm_num, by norm_num [cfg3], ?_⟩
  norm_num [setLODLevel, mapGet, mapSet, cfg3, List.enum, List.enumFrom]

/-- A key is absent exactly when `Map.get` misses. -/
theorem mapGet_eq_none_iff (m : List (ℕ × LODObj)) (k : ℕ) :
    mapGet m k = none ↔ k ∉ m.map Prod.fst := by
  induction m with
  | nil => simp [mapGet]
  | cons e rest ih =>
    rw [List.map_cons, List.mem_cons]
    by_cases h : e.1 = k
    · simp [mapGet, h]
    · have hne : ¬ k = e.1 := fun he => h he.symm
      simp only [mapGet, if_neg h, ih]
      tauto

/-- Keys after `Map.set`: the set key joins the existing keys. -/
theorem mem_keys_mapSet (m : List (ℕ × LODObj)) (k x : ℕ) (v : LODObj) :
    x ∈ (mapSet m k v).map Prod.fst ↔ x = k ∨ x ∈ m.map Prod.fst := by
  induction m with
  | nil => simp [mapSet]
  | cons e rest ih =>
    by_cases h : e.1 = k
    · subst h
      simp [mapSet]
    · simp [mapSet, h, ih]
      tauto

/-- `Map.set` preserves distinctness of keys. -/
theorem nodup_keys_mapSet (m : List (ℕ × LODObj)) (k : ℕ) (v : LODObj)
    (hn : (m.map Prod.fst).Nodup) : ((mapSet m k v).map Prod.fst).Nodup := by
  induction m with
  | nil => simp [mapSet]
  | cons e rest ih =>
    rw [List.map_cons, List.nodup_cons] at hn
    by_cases h : e.1 = k
    · simp only [mapSet, h, if_true, List.map_cons, List.nodup_cons]
      exact ⟨h ▸ hn.1, hn.2⟩
    · simp only [mapSet, h, if_false, List.map_cons, List.nodup_cons]
      refine ⟨?_, ih hn.2⟩
      rw [mem_keys_mapSet]
      rintro (he | he)
      · exact h he
      · exact hn.1 he

/-- Keys after `Map.delete` are a subsequence of the keys before. -/
theorem keys_mapDelete_sublist (m : List (ℕ × LODObj)) (k : ℕ) :
    ((mapDelete m k).map Prod.fst).Sublist (m.map Prod.fst) := by
  induction m with
  | nil => simp [mapDelete]
  | cons e rest ih =>
    by_cases h : e.1 = k
    · simp only [mapDelete, h, if_true, List.map_cons]
      exact List.sublist_cons_self _ _
    · simp only [mapDelete, h, if_false, List.map_cons]
      exact ih.cons₂ _

/-- With distinct keys, deleting a key removes it entirely. -/
theorem not_mem_keys_mapDelete (m : List (ℕ × LODObj)) (k : ℕ)
    (hn : (m.map Prod.fst).Nodup) : k ∉ (mapDelete m k).map Prod.fst := by
  induction m with
  | nil => simp [mapDelete]
  | cons e rest ih =>
    rw [List.map_cons, List.nodup_cons] at hn
    by_cases h : e.1 = k
    · simp only [mapDelete, h, if_true]
      exact h ▸ hn.1
    · simp only [mapDelete, h, if_false, List.map_cons, List.mem_cons]
      rintro (he | he)
      · exact h he.symm
      · exact ih hn.2 he

/-- Setting an absent key appends it. -/
theorem keys_mapSet_of_not_mem (m : List (ℕ × LODObj)) (k : ℕ) (v : LODObj)
    (h : k ∉ m.map Prod.fst) :
    (mapSet m k v).map Prod.fst = m.map Prod.fst ++ [k] := by
  induction m with
  | nil => simp [mapSet]
  | cons e rest ih =>
    rw [List.map_cons, List.mem_cons] at h
    push_neg at h
    have hne : ¬ e.1 = k := fun he => h.1 he.symm
    simp only [mapSet]
    rw [if_neg hne]
    simp only [List.map_cons, ih h.2, List.cons_append]

/-- Registration leaves exactly one entry for the registered id whenever
the registry keys were distinct. -/
theorem count_keys_createLODForModel (s : LODState) (modelID : ℕ) (mesh : MeshObj)
    (failAt : ℕ → Bool) (hn : (s.lodObjects.map Prod.fst).Nodup) :
    ((createLODForModel s modelID mesh failAt).lodObjects.map Prod.fst).count modelID
      = 1 := by
  simp only [createLODForModel]
  by_cases h : (mapGet s.lodObjects modelID).isSome
  · rw [if_pos h]
    have hdel : (removeLODForModel s modelID).lodObjects = mapDelete s.lodObjects modelID := by
      simp [removeLODForModel, h]
    rw [hdel]
    have hout : modelID ∉ (mapDelete s.lodObjects modelID).map Prod.fst :=
      not_mem_keys_mapDelete _ _ hn
    rw [keys_mapSet_of_not_mem _ _ _ hout, List.count_append]
    rw [List.count_eq_zero.2 hout]
    simp
  · rw [if_neg h]
    have hout : modelID ∉ s.lodObjects.map Prod.fst := by
      rw [← mapGet_eq_none_iff]
      exact Option.not_isSome_iff_eq_none.1 h
    rw [keys_mapSet_of_not_mem _ _ _ hout, List.count_append]
    rw [List.count_eq_zero.2 hout]
    simp

/-- Every operation preserves distinctness of the registry keys. -/
theorem applyOp_nodup (s : LODState) (op : LODOp)
    (hn : (s.lodObjects.map Prod.fst).Nodup) :
    ((applyOp s op).lodObjects.map Prod.fst).Nodup := by
  cases op with
  | register modelID mesh failAt =>
    simp only [applyOp, createLODForModel]
    by_cases h : (mapGet s.lodObjects modelID).isSome
    · rw [if_pos h]
      apply nodup_keys_mapSet
      have hdel : (removeLODForModel s modelID).lodObjects
          = mapDelete s.lodObjects modelID := by
        simp [removeLODForModel, h]
      rw [hdel]
      exact (keys_mapDelete_sublist _ _).nodup hn
    · rw [if_neg h]
      exact nodup_keys_mapSet _ _ _ hn
  | unregister modelID =>
    simp only [applyOp, removeLODForModel]
    by_cases h : (mapGet s.lodObjects modelID).isSome
    · rw [if_pos h]
      exact (keys_mapDelete_sublist _ _).nodup hn
    · rw [if_neg h]
      exact hn
  | setLevel modelID lvl =>
    simp only [applyOp, setLODLevel]
    rcases he : mapGet s.lodObjects modelID with _ | lod
    · simp only [he]
      exact hn
    · simp only [he]
      by_cases h : 0 ≤ lvl ∧ lvl < (s.config.levels.length : ℤ)
      · rw [if_pos h]
        exact nodup_keys_mapSet _ _ _ hn
      · rw [if_neg h]
        exact hn
  | disposeAll => simp [applyOp, dispose]

/-- Claim C8: starting from a fresh manager, any sequence of operations
leaves the registry with pairwise-distinct model ids; and registering an
id over a distinct-key registry (managed or not: the prior entry is
removed first) leaves exactly one entry for that id, never two. -/
theorem registry_unique_C8 :
    (∀ cfg h0 ops,
      (((runOps (initState cfg h0) ops).lodObjects.map Prod.fst)).Nodup) ∧
    (∀ s modelID mesh failAt, ((s.lodObjects.map Prod.fst)).Nodup →
      ((createLODForModel s modelID mesh failAt).lodObjects.map Prod.fst).count modelID
        = 1) := by
  constructor
  · intro cfg h0 ops
    have hrun : ∀ (l : List LODOp) (s : LODState),
        (s.lodObjects.map Prod.fst).Nodup →
        ((runOps s l).lodObjects.map Prod.fst).Nodup := by
      intro l
      induction l with
      | nil => intro s hs; exact hs
      | cons op rest ih =>
        intro s hs
        exact ih (applyOp s op) (applyOp_nodup s op hs)
    exact hrun ops (initState cfg h0) (by simp [initState])
  · exact count_keys_createLODForModel

/-- Witness for C8: re-registering model 1 over a one-entry registry, and
running a concrete register/unregister/register sequence, both end with
exactly one entry for the id. -/
theorem registry_unique_C8_witness :
    ((createLODForModel sV 1 mesh0 noFail).lodObjects.map Prod.fst).count 1 = 1 ∧
    ((runOps (initState cfg2 heap0) [LODOp.register 1 mesh0 noFail, LODOp.unregister 1, LODOp.register 1 mesh0 noFail]).lodObjects.map Prod.fst).Nodup :=
  ⟨registry_unique_C8.2 sV 1 mesh0 noFail (by decide),
   registry_unique_C8.1 cfg2 heap0
     [LODOp.register 1 mesh0 noFail, LODOp.unregister 1, LODOp.register 1 mesh0 noFail]⟩

/-- Claim C9: `dispose` is idempotent (a second call, over the emptied
registry, changes nothing and raises nothing), the memory query reports a
zero total afterwards, and a subsequent registration produces a registry
holding exactly the new id. -/
theorem dispose_idempotent_C9 (s : LODState) :
    dispose (dispose s) = dispose s ∧
    (getMemoryUsage (dispose s)).1 = 0 ∧
    (∀ modelID mesh failAt,
      (createLODForModel (dispose s) modelID mesh failAt).lodObjects.map Prod.fst
        = [modelID]) := by
  refine ⟨?_, ?_, ?_⟩
  · simp [dispose]
  · simp [getMemoryUsage, dispose]
  · intro modelID mesh failAt
    have hempty : (dispose s).lodObjects = [] := by simp [dispose]
    simp only [createLODForModel, removeLODForModel, hempty]
    simp [mapGet, mapSet]

/-- The adjusted-material step only grows the material heap: geometries
are untouched and the returned mesh keeps its geometry reference. -/
theorem adjustMaterial_geoms (h : Heap) (mesh : MeshObj) (idx : ℕ) :
    (adjustMaterial h mesh idx).1.geoms = h.geoms ∧
    (adjustMaterial h mesh idx).2.geom = mesh.geom := by
  simp [adjustMaterial]

/-- Claim C6: a synthesis failure (the try block throwing) yields null
for every level above 0, yields the untouched original mesh for level 0,
and registration always completes with the model managed — no per-level
failure aborts `createLODForModel`. -/
theorem synthesis_failure_C6 :
    (∀ h mesh level idx, level.visible = true → 0 < idx →
      createLODLevel h mesh level idx true = (h, none)) ∧
    (∀ h mesh level, level.visible = true →
      createLODLevel h mesh level 0 true = (h, some mesh)) ∧
    (∀ s modelID mesh failAt,
      (mapGet (createLODForModel s modelID mesh failAt).lodObjects modelID).isSome
        = true) := by
  refine ⟨?_, ?_, ?_⟩
  · intro h mesh level idx hv hidx
    simp only [createLODLevel, hv, Bool.not_true, Bool.false_eq_true, if_false, if_true]
    rw [if_neg (by omega : ¬ idx = 0)]
  · intro h mesh level hv
    simp [createLODLevel, hv]
  · intro s modelID mesh failAt
    simp only [createLODForModel]
    rw [mapGet_mapSet_self]
    rfl

/-- Witness for C6: a failing clone at level 1 produces null and leaves
the heap untouched; a failing clone at level 0 returns the original mesh;
a registration in which every level throws still registers the model. -/
theorem synthesis_failure_C6_witness :
    createLODLevel heap0 mesh0 defLevel 1 true = (heap0, none) ∧
    createLODLevel heap0 mesh0 defLevel 0 true = (heap0, some mesh0) ∧
    (mapGet (createLODForModel sEmpty 1 mesh0 (fun _ => true)).lodObjects 1).isSome
      = true :=
  ⟨synthesis_failure_C6.1 heap0 mesh0 defLevel 1 (by rfl) (by norm_num),
   synthesis_failure_C6.2.1 heap0 mesh0 defLevel (by rfl),
   synthesis_failure_C6.2.2 sEmpty 1 mesh0 (fun _ => true)⟩

/-- Claim C5: level synthesis returns null for a disabled level; for an
enabled level it returns a mesh sharing the original's geometry
reference, and the geometry's position buffer is replaced by the
decimation result — with `targetCount = max(3, ⌊originalCount·ratio⌋)`
and normals recomputed — exactly when `ratio < 1`, `levelIndex > 0` and
the clamped target is below the vertex count; in the remaining enabled
cases the buffer is untouched, and whenever the clamped target reaches
the vertex count the decimator is the identity anyway, so level 0 always
keeps full detail and an enabled level's buffer content is the
decimation pipeline's output in every case. -/
theorem synthesis_levels_C5 (h : Heap) (mesh : MeshObj) (level : LODLevel)
    (idx n tc : ℕ) (hg : mesh.geom < h.geoms.length)
    (hlen : (h.geoms.getD mesh.geom defGeometry).positions.length = 3 * n)
    (htc : tc = max 3 (Int.toNat ⌊(n : ℚ) * level.simplificationRatio⌋)) :
    (level.visible = false → ∀ fl, createLODLevel h mesh level idx fl = (h, none)) ∧
    (level.visible = true →
      (createLODLevel h mesh level idx false).2.map MeshObj.geom = some mesh.geom) ∧
    (level.visible = true → level.simplificationRatio < 1 → 0 < idx → tc < n →
      ((createLODLevel h mesh level idx false).1.geoms.getD mesh.geom
          defGeometry).positions
        = decimateVertices (h.geoms.getD mesh.geom defGeometry).positions tc ∧
      ((createLODLevel h mesh level idx false).1.geoms.getD mesh.geom
          defGeometry).recomputedNormals = true) ∧
    (level.visible = true →
      (¬ level.simplificationRatio < 1 ∨ idx = 0 ∨ ¬ tc < n) →
      (createLODLevel h mesh level idx false).1.geoms.getD mesh.geom defGeometry
        = h.geoms.getD mesh.geom defGeometry) ∧
    (n ≤ tc →
      decimateVertices (h.geoms.getD mesh.geom defGeometry).positions tc
        = (h.geoms.getD mesh.geom defGeometry).positions) := by
  have hocq : ((h.geoms.getD mesh.geom defGeometry).positions.length : ℚ) / 3 = (n : ℚ) := by
    rw [hlen]
    push_cast
    ring
  have htc2 : max 3 (Int.toNat
      ⌊((h.geoms.getD mesh.geom defGeometry).positions.length : ℚ) / 3
          * level.simplificationRatio⌋) = tc := by
    rw [hocq, htc]
  refine ⟨?_, ?_, ?_, ?_, ?_⟩
  · intro hv fl
    simp [createLODLevel, hv]
  · intro hv
    simp [createLODLevel, cloneMesh, hv, adjustMaterial]
  · intro hv hr hidx hlt
    have hcond : level.simplificationRatio < 1 ∧ 0 < idx := ⟨hr, hidx⟩
    simp only [createLODLevel, hv, Bool.not_true, Bool.false_eq_true, if_false,
      cloneMesh, if_pos hcond]
    rw [(adjustMaterial_geoms _ mesh idx).1]
    simp only [simplifyGeometry, htc2]
    rw [if_pos (by rw [hocq]; exact_mod_cast hlt)]
    have hset : ((h.geoms.set mesh.geom
        { positions := decimateVertices
            (h.geoms.getD mesh.geom defGeometry).positions tc
        , recomputedNormals := true
        , disposed := (h.geoms.getD mesh.geom defGeometry).disposed }).getD mesh.geom
          defGeometry)
        = { positions := decimateVertices
              (h.geoms.getD mesh.geom defGeometry).positions tc
          , recomputedNormals := true
          , disposed := (h.geoms.getD mesh.geom defGeometry).disposed } := by
      rw [List.getD_eq_getElem _ _ (by simpa using hg)]
      simp [List.getElem_set]
    rw [hset]
    exact ⟨rfl, rfl⟩
  · intro hv hcase
    by_cases hcond : level.simplificationRatio < 1 ∧ 0 < idx
    · have hnlt : ¬ tc < n := by
        rcases hcase with hc | hc | hc
        · exact absurd hcond.1 hc
        · omega
        · exact hc
      simp only [createLODLevel, hv, Bool.not_true, Bool.false_eq_true, if_false,
        cloneMesh, if_pos hcond]
      rw [(adjustMaterial_geoms _ mesh idx).1]
      simp only [simplifyGeometry, htc2]
      rw [if_neg (by rw [hocq]; exact_mod_cast hnlt)]
    · simp only [createLODLevel, hv, Bool.not_true, Bool.false_eq_true, if_false,
        cloneMesh, if_neg hcond]
      rw [(adjustMaterial_geoms _ mesh idx).1]
  · intro hge
    exact decimateVertices_noop _ n tc hlen hge

/-- Witness for C5 at an 8-point mesh: a disabled level yields null, and
an enabled half-ratio level 1 replaces the buffer with the 4-point
decimation and recomputes normals. -/
theorem synthesis_levels_C5_witness :
    (createLODLevel heap0 mesh0
        { distance := 50, simplificationRatio := 1/2, visible := false } 1 false
      = (heap0, none)) ∧
    ((createLODLevel heap0 mesh0
        { distance := 50, simplificationRatio := 1/2, visible := true } 1
        false).1.geoms.getD mesh0.geom defGeometry).positions
      = decimateVertices (heap0.geoms.getD mesh0.geom defGeometry).positions 4 := by
  have hlen : (heap0.geoms.getD mesh0.geom defGeometry).positions.length = 3 * 8 := by
    norm_num [heap0, mesh0, List.getD_cons_zero, length_flattenPoints, pts8]
  have htc : (4 : ℕ) = max 3 (Int.toNat ⌊((8 : ℕ) : ℚ) * (1/2 : ℚ)⌋) := by
    have hf : ⌊((8 : ℕ) : ℚ) * (1/2 : ℚ)⌋ = 4 := by norm_num
    rw [hf]
    decide
  constructor
  · exact (synthesis_levels_C5 heap0 mesh0
      ({ distance := 50, simplificationRatio := 1/2, visible := false }) 1 8 4
      (by norm_num [heap0, mesh0]) hlen htc).1 (by rfl) false
  · exact ((synthesis_levels_C5 heap0 mesh0
      ({ distance := 50, simplificationRatio := 1/2, visible := true }) 1 8 4
      (by norm_num [heap0, mesh0]) hlen htc).2.2.1 (by rfl) (by norm_num) (by norm_num)
      (by norm_num)).1

/-- Claim C4 names a real defect: `createLODLevel` clones with three.js
`Mesh.clone()`, which copies the geometry by reference, and
`simplifyGeometry` then replaces the position buffer of that SHARED
geometry object in place.  After registering an 8-vertex model under a
two-level configuration, both level children and the source mesh point
at geometry 0, whose buffer now holds the level-1 decimation — level 0
and the source lost full detail, refuting independent ownership. -/
theorem level_buffer_aliasing_C4_bug :
    mapGet s4.lodObjects 1
      = some { position := (0, 0, 0)
             , children := [{ geom := 0, mat := 1, visible := true }
                           , { geom := 0, mat := 2, visible := true }] } ∧
    mesh0.geom = 0 ∧
    (s4.heap.geoms.getD 0 defGeometry).positions
      = decimateVertices (flattenPoints pts8) 4 ∧
    decimateVertices (flattenPoints pts8) 4 ≠ flattenPoints pts8 := by
  have hdec : decimateVertices (flattenPoints pts8) 4
      = [0, 0, 0, 2, 0, 0, 4, 0, 0, 6, 0, 0] := by
    norm_num [decimateVertices, flattenPoints, pts8, List.range_succ,
      List.getD_cons_succ, List.getD_cons_zero]
  have hs4 : s4
      = { config := cfg2
        , lodObjects :=
            [(1, { position := (0, 0, 0)
                 , children := [{ geom := 0, mat := 1, visible := true }
                               , { geom := 0, mat := 2, visible := true }] })]
        , heap :=
            { geoms := [{ positions := [0, 0, 0, 2, 0, 0, 4, 0, 0, 6, 0, 0]
                        , recomputedNormals := true, disposed := false }]
            , mats := [defMaterial
                      , { opacity := 1, transparent := false
                        , wireframe := false, disposed := false }
                      , { opacity := 4/5, transparent := true
                        , wireframe := false, disposed := false }] } } := by
    norm_num [s4, cfg2, createLODForModel, initState, removeLODForModel, mapGet, mapSet,
      createLODLevel, cloneMesh, simplifyGeometry, adjustMaterial, hdec, heap0, mesh0,
      noFail, defMaterial, defMesh, defGeometry, List.enum, List.enumFrom,
      List.foldl_cons, List.foldl_nil, flattenPoints, pts8, length_flattenPoints,
      List.getD_cons_succ, List.getD_cons_zero, List.range_succ, Int.toNat_ofNat]
    have h4 : Int.toNat 4 = 4 := rfl
    rw [h4]
    norm_num [decimateVertices, List.range_succ, List.getD_cons_succ, List.getD_cons_zero]
  rw [hs4]
  refine ⟨by rfl, by rfl, ?_, ?_⟩
  · rw [hdec]
    rfl
  · rw [hdec]
    intro heq
    have hlength := congrArg List.length heq
    rw [length_flattenPoints] at hlength
    norm_num [pts8] at hlength
